import Mathlib

/-!
Verification of the record-store core of `src/app.js`: an IndexedDB-backed
file store with `openDB`, `addFileRecord`, `getAllFiles`, `deleteFile`,
plus the upload pipeline (`handleFiles`, `fileToDataURL`) and the display
formatter `readableFileSize`.

Shallow embedding notes:
* The IndexedDB object store (`keyPath: 'id', autoIncrement: true`) is
  modelled as `StoreState`: a key-generator counter `nextId` (IndexedDB key
  generators start at 1 and always exceed every key previously generated)
  plus the list of stored records in key order (`getAll` returns records in
  ascending key order, which here is insertion order).
* `new Date().toISOString()` is modelled by threading the current timestamp
  in as an explicit argument.
* JavaScript's `Number(id)` coercion in `deleteFile` is modelled by `toNumber`
  on a value that is either a number or a string; a string that is a decimal
  numeral coerces to that numeral, any other string coerces to NaN (`none`).
  `store.delete(NaN)` throws a `DataError` (NaN is not a valid IndexedDB
  key), which rejects the promise, so `deleteFile` returns an error there.
* `FileReader.readAsDataURL` is modelled as producing
  `data:<type>;base64,<base64 bytes>`, with base64 as in RFC 4648.
-/

namespace App

/-- A JavaScript `File` as used by `app.js`: metadata plus its byte content
(each byte `< 256`; the bound is carried as a hypothesis where needed). -/
structure JSFile where
  name : String
  type : String
  size : Nat
  bytes : List Nat
deriving Repr, DecidableEq

/-- One stored record, exactly the object built in `addFileRecord`:
`{ name, type, size, uploadedAt, dataURL }` plus the auto-assigned `id`. -/
structure FileRecord where
  id : Nat
  name : String
  type : String
  size : Nat
  uploadedAt : String
  dataURL : String
deriving Repr, DecidableEq

/-- The state of the IndexedDB object store `files`: the key generator's next
key and the stored records in ascending key order. A fresh store has
`nextId = 1` and no records. -/
structure StoreState where
  nextId : Nat
  records : List FileRecord
deriving Repr, DecidableEq

/-- The fresh object store created by `onupgradeneeded`. -/
def emptyStore : StoreState := { nextId := 1, records := [] }

/-- `addFileRecord(file, dataURL)`: builds
`{ name: file.name, type: file.type, size: file.size, uploadedAt: now, dataURL }`
and `store.add(rec)`; the key generator assigns `nextId` as the new `id`,
the request's `onsuccess` resolves with that key. Returns the assigned id
and the new store state. -/
def addFileRecord (file : JSFile) (dataURL : String) (now : String)
    (s : StoreState) : Nat × StoreState :=
  let rec0 : FileRecord :=
    { id := s.nextId, name := file.name, type := file.type, size := file.size
      uploadedAt := now, dataURL := dataURL }
  (s.nextId, { nextId := s.nextId + 1, records := s.records ++ [rec0] })

/-- `getAllFiles()`: `store.getAll()`, every stored record in key order. -/
def getAllFiles (s : StoreState) : List FileRecord :=
  s.records

/-- A JavaScript value passed as the `id` argument of `deleteFile`
(the UI passes the string `btn.dataset.id`; the store key is a number). -/
inductive JSVal where
  | num (n : Nat)
  | str (s : String)
deriving Repr, DecidableEq

/-- A non-empty all-digit character sequence read as a decimal numeral;
anything else is not a numeral. -/
def parseDecimal (cs : List Char) : Option Nat :=
  if cs ≠ [] ∧ cs.all (fun c => c.isDigit) then
    some (cs.foldl (fun n c => n * 10 + (c.toNat - 48)) 0)
  else none

/-- `Number(id)` as applied to the values above: a number is itself, a string
that is a decimal numeral is that numeral, any other string is NaN (`none`).
(Modelled on canonical decimal strings — the only numeric strings this app
produces via `data-id`; JS oddities such as `Number("")` or exponent forms
are outside that range.) -/
def toNumber : JSVal → Option Nat
  | .num n => some n
  | .str s => parseDecimal s.data

/-- `deleteFile(id)`: `store.delete(Number(id))`. A valid numeric key removes
the record with that key (a no-op if absent); `NaN` is not a valid key, so
`store.delete` throws `DataError` inside the promise executor and the
promise rejects with the store untouched. -/
def deleteFile (arg : JSVal) (s : StoreState) : Except String StoreState :=
  match toNumber arg with
  | some n => .ok { s with records := s.records.filter (fun r => r.id != n) }
  | none => .error "DataError"

/-- The module-level connection state of `app.js`: the global `let db = null`
plus a count of how many real `indexedDB.open` calls have completed (used to
mint fresh handles and to observe re-opens). -/
structure AppDB where
  dbVar : Option Nat
  openCount : Nat
deriving Repr, DecidableEq

/-- `openDB()`: `if (db) return res(db)`; otherwise `indexedDB.open` succeeds,
stores the fresh handle in the global `db` and resolves with it. -/
def openDB : AppDB → Nat × AppDB
  | ⟨some h, c⟩ => (h, ⟨some h, c⟩)
  | ⟨none, c⟩ => (c + 1, ⟨some (c + 1), c + 1⟩)

/- ---------- Claims C1, C2, C3, C6, C7 ---------- -/

/-- C1: every record inserted via `addFileRecord` shows up in a subsequent
`getAllFiles`: some returned record has the id returned by the insert, and
its `name`, `type`, `size`, `uploadedAt` and `dataURL` fields equal the
inserted values. -/
theorem addFileRecord_then_getAllFiles_contains
    (file : JSFile) (dataURL now : String) (s : StoreState) :
    ∃ r ∈ getAllFiles (addFileRecord file dataURL now s).2,
      r.id = (addFileRecord file dataURL now s).1 ∧
      r.name = file.name ∧ r.type = file.type ∧ r.size = file.size ∧
      r.uploadedAt = now ∧ r.dataURL = dataURL := by
  refine ⟨{ id := s.nextId, name := file.name, type := file.type,
            size := file.size, uploadedAt := now, dataURL := dataURL }, ?_, ?_⟩
  · simp [getAllFiles, addFileRecord]
  · simp [addFileRecord]

/-- C2: after `deleteFile` succeeds on the numeric key `n`, `getAllFiles`
returns no record whose id is `n` (and this holds until the state changes
again, since `getAllFiles` only reads the state). -/
theorem deleteFile_then_getAllFiles_absent
    (n : Nat) (s : StoreState) (s2 : StoreState)
    (h : deleteFile (.num n) s = .ok s2) :
    ∀ r ∈ getAllFiles s2, r.id ≠ n := by
  simp only [deleteFile, toNumber] at h
  cases h
  intro r hr
  simp only [getAllFiles, List.mem_filter, bne_iff_ne, ne_eq] at hr
  exact hr.2

/-- Witness for C2: delete id 2 from a two-record store; the surviving
listed record's id is not 2. -/
theorem deleteFile_then_getAllFiles_absent_witness :
    (⟨1, "a", "t", 3, "now", "d"⟩ : FileRecord).id ≠ 2 :=
  deleteFile_then_getAllFiles_absent 2
    ⟨3, [⟨1, "a", "t", 3, "now", "d"⟩, ⟨2, "b", "u", 4, "later", "e"⟩]⟩
    ⟨3, [⟨1, "a", "t", 3, "now", "d"⟩]⟩ rfl
    ⟨1, "a", "t", 3, "now", "d"⟩ (by decide)

/-- C3: `deleteFile` on a valid numeric key that no stored record has
succeeds and leaves the store exactly as it was. -/
theorem deleteFile_absent_id_noop
    (n : Nat) (s : StoreState) (h : ∀ r ∈ s.records, r.id ≠ n) :
    deleteFile (.num n) s = .ok s := by
  simp only [deleteFile, toNumber]
  have hf : s.records.filter (fun r => r.id != n) = s.records :=
    List.filter_eq_self.mpr (fun r hr => by simpa using h r hr)
  rw [hf]

/-- Witness for C3: deleting id 5 from a store that only holds id 1. -/
theorem deleteFile_absent_id_noop_witness :
    deleteFile (.num 5)
      { nextId := 2,
        records := [{ id := 1, name := "a", type := "t", size := 3,
                      uploadedAt := "now", dataURL := "d" }] } =
      .ok { nextId := 2,
            records := [{ id := 1, name := "a", type := "t", size := 3,
                          uploadedAt := "now", dataURL := "d" }] } :=
  deleteFile_absent_id_noop 5 _ (by decide)

/-- C6 (frame/immutability): `addFileRecord` leaves every previously stored
record in the store unchanged (same record value, every field included),
and a successful `deleteFile` on key `n` leaves every record whose id is
not `n` unchanged. No other mutation of the store exists in the code, so a
record's fields are identical in every `getAllFiles` result between its
insertion and its deletion. -/
theorem store_records_immutable :
    (∀ (file : JSFile) (dataURL now : String) (s : StoreState),
      ∀ r ∈ getAllFiles s, r ∈ getAllFiles (addFileRecord file dataURL now s).2) ∧
    (∀ (n : Nat) (s s2 : StoreState), deleteFile (.num n) s = .ok s2 →
      ∀ r ∈ getAllFiles s, r.id ≠ n → r ∈ getAllFiles s2) := by
  constructor
  · intro file dataURL now s r hr
    simp only [getAllFiles, addFileRecord] at *
    exact List.mem_append_left _ hr
  · intro n s s2 h r hr hid
    simp only [deleteFile, toNumber] at h
    cases h
    simp only [getAllFiles, List.mem_filter, bne_iff_ne, ne_eq]
    exact ⟨hr, hid⟩

/-- Witness for C6: the record with id 1 survives an insert and a delete of
id 2 unchanged. -/
theorem store_records_immutable_witness :
    ({ id := 1, name := "a", type := "t", size := 3,
       uploadedAt := "now", dataURL := "d" } : FileRecord) ∈
      getAllFiles (addFileRecord ⟨"b", "u", 4, []⟩ "d2" "later"
        { nextId := 2,
          records := [{ id := 1, name := "a", type := "t", size := 3,
                        uploadedAt := "now", dataURL := "d" }] }).2 ∧
    ({ id := 1, name := "a", type := "t", size := 3,
       uploadedAt := "now", dataURL := "d" } : FileRecord) ∈
      getAllFiles { nextId := 3, records :=
        [{ id := 1, name := "a", type := "t", size := 3,
           uploadedAt := "now", dataURL := "d" }] } := by
  constructor
  · exact store_records_immutable.1 ⟨"b", "u", 4, []⟩ "d2" "later" _ _ (by decide)
  · exact store_records_immutable.2 2
      { nextId := 3, records :=
          [{ id := 1, name := "a", type := "t", size := 3,
             uploadedAt := "now", dataURL := "d" }] }
      _ rfl _ (by decide) (by decide)

/-- C7: `openDB` is idempotent. From any module state, after the first call
completes, a repeated call returns the very same handle and leaves the
module state (including the count of real `indexedDB.open` calls)
untouched — no re-open happens. Since every store operation in the code
begins with `openDB().then(database => ...)`, all subsequent operations use
that same handle. -/
theorem openDB_idempotent (st : AppDB) :
    openDB (openDB st).2 = ((openDB st).1, (openDB st).2) ∧
    (openDB (openDB st).2).2.openCount = (openDB st).2.openCount := by
  obtain ⟨dbVar, c⟩ := st
  cases dbVar <;> simp [openDB]

/- ---------- C4: sequential inserts, fresh monotone ids ---------- -/

/-- `N` sequential `addFileRecord` calls (each awaited before the next), as
`handleFiles` performs them; returns the list of assigned ids and the final
store state. Each list element carries the file, the dataURL computed for
it and the timestamp at which the insert ran. -/
def insertMany : List (JSFile × String × String) → StoreState → List Nat × StoreState
  | [], s => ([], s)
  | (f, d, t) :: rest, s =>
    let p := addFileRecord f d t s
    let q := insertMany rest p.2
    (p.1 :: q.1, q.2)

/-- The key-generator invariant of an IndexedDB store whose keys all come
from the generator: every stored key is below the generator's next key.
It holds for the fresh store and is preserved by every operation. -/
def WFStore (s : StoreState) : Prop :=
  ∀ r ∈ s.records, r.id < s.nextId

theorem wfStore_empty : WFStore emptyStore := by
  intro r hr
  simp [emptyStore] at hr

theorem wfStore_addFileRecord (file : JSFile) (dataURL now : String)
    (s : StoreState) (h : WFStore s) :
    WFStore (addFileRecord file dataURL now s).2 := by
  intro r hr
  simp only [addFileRecord, List.mem_append, List.mem_singleton] at hr
  rcases hr with hr | hr
  · exact Nat.lt_succ_of_lt (h r hr)
  · subst hr; exact Nat.lt_succ_self _

theorem insertMany_ids_lower (l : List (JSFile × String × String)) :
    ∀ s : StoreState, ∀ i ∈ (insertMany l s).1, s.nextId ≤ i := by
  induction l with
  | nil => intro s i hi; simp [insertMany] at hi
  | cons hd tl ih =>
    obtain ⟨f, d, t⟩ := hd
    intro s i hi
    simp only [insertMany, List.mem_cons] at hi
    rcases hi with rfl | hi
    · exact le_refl _
    · have := ih (addFileRecord f d t s).2 i hi
      simpa [addFileRecord] using le_trans (Nat.le_succ _) this

/-- C4: starting from any store satisfying the key-generator invariant,
inserting `N` records sequentially returns `N` ids that are strictly
increasing in assignment order (hence pairwise distinct, and each new id
greater than all previously assigned ones), every one of them distinct
from (indeed greater than) every id already present in the store. -/
theorem insertMany_ids_distinct_monotone
    (l : List (JSFile × String × String)) (s : StoreState) (hwf : WFStore s) :
    (insertMany l s).1.length = l.length ∧
    List.Pairwise (· < ·) (insertMany l s).1 ∧
    (insertMany l s).1.Nodup ∧
    (∀ i ∈ (insertMany l s).1, ∀ r ∈ s.records, r.id < i) := by
  have main : ∀ (l : List (JSFile × String × String)) (s : StoreState),
      (insertMany l s).1.length = l.length ∧
      List.Pairwise (· < ·) (insertMany l s).1 ∧
      ∀ i ∈ (insertMany l s).1, s.nextId ≤ i := by
    intro l
    induction l with
    | nil => intro s; simp [insertMany]
    | cons hd tl ih =>
      obtain ⟨f, d, t⟩ := hd
      intro s
      obtain ⟨ihlen, ihpw, ihlb⟩ := ih (addFileRecord f d t s).2
      refine ⟨by simpa [insertMany] using ihlen, ?_, ?_⟩
      · simp only [insertMany, List.pairwise_cons]
        refine ⟨fun i hi => ?_, ihpw⟩
        have := ihlb i hi
        simp only [addFileRecord] at this ⊢
        omega
      · intro i hi
        simp only [insertMany, List.mem_cons] at hi
        rcases hi with rfl | hi
        · exact le_refl _
        · have := ihlb i hi
          simp only [addFileRecord] at this
          omega
  obtain ⟨hlen, hpw, hlb⟩ := main l s
  refine ⟨hlen, hpw, hpw.imp ?_, ?_⟩
  · intro a b hab; exact Nat.ne_of_lt hab
  · intro i hi r hr
    exact lt_of_lt_of_le (hwf r hr) (hlb i hi)

/-- Witness for C4: two inserts into a store already holding id 1. -/
theorem insertMany_ids_distinct_monotone_witness :
    (insertMany [(⟨"b", "u", 4, []⟩, "d1", "t1"), (⟨"c", "v", 5, []⟩, "d2", "t2")]
        ⟨2, [⟨1, "a", "t", 3, "now", "d"⟩]⟩).1.Nodup ∧
    (∀ i ∈ (insertMany
        [(⟨"b", "u", 4, []⟩, "d1", "t1"), (⟨"c", "v", 5, []⟩, "d2", "t2")]
        ⟨2, [⟨1, "a", "t", 3, "now", "d"⟩]⟩).1,
      ∀ r ∈ (⟨2, [⟨1, "a", "t", 3, "now", "d"⟩]⟩ : StoreState).records, r.id < i) := by
  have h := insertMany_ids_distinct_monotone
    [(⟨"b", "u", 4, []⟩, "d1", "t1"), (⟨"c", "v", 5, []⟩, "d2", "t2")]
    ⟨2, [⟨1, "a", "t", 3, "now", "d"⟩]⟩
    (by intro r hr; simp only [List.mem_singleton] at hr; subst hr; decide)
  exact ⟨h.2.2.1, h.2.2.2⟩

/- ---------- C9: Number(id) coercion in deleteFile ---------- -/

/-- C9: `deleteFile` coerces its argument with `Number(id)` before deleting,
so a stored record can be deleted equally by its numeric id or by the
decimal string form of that id (as the UI's `data-id` attribute supplies):
both calls are the very same operation on the store. A string that does
not coerce to a number gives `NaN`, which is not a valid IndexedDB key:
the call errors out and no record is deleted. -/
theorem deleteFile_number_coercion :
    (∀ (str0 : String) (i : Nat) (s : StoreState),
      toNumber (.str str0) = some i →
      deleteFile (.str str0) s = deleteFile (.num i) s) ∧
    (∀ (str0 : String) (s : StoreState), toNumber (.str str0) = none →
      deleteFile (.str str0) s = .error "DataError") := by
  constructor
  · intro str0 i s h
    simp only [toNumber] at h
    simp [deleteFile, toNumber, h]
  · intro str0 s h
    simp only [toNumber] at h
    simp [deleteFile, toNumber, h]

/-- Witness for C9: `"1"` deletes like `1`; `"abc"` coerces to NaN and the
call rejects. -/
theorem deleteFile_number_coercion_witness :
    deleteFile (.str "1") ⟨2, [⟨1, "a", "t", 3, "now", "d"⟩]⟩ =
      deleteFile (.num 1) ⟨2, [⟨1, "a", "t", 3, "now", "d"⟩]⟩ ∧
    deleteFile (.str "abc") ⟨2, [⟨1, "a", "t", 3, "now", "d"⟩]⟩ =
      .error "DataError" := by
  constructor
  · exact deleteFile_number_coercion.1 "1" 1 _ (by decide)
  · exact deleteFile_number_coercion.2 "abc" _ (by decide)

/- ---------- C10: readableFileSize ---------- -/

/-- The unit table of `readableFileSize`: `['B','KB','MB','GB','TB']`. -/
def sizesList : List String := ["B", "KB", "MB", "GB", "TB"]

/-- The unit index of `readableFileSize`,
`Math.floor(Math.log(bytes) / Math.log(1024))`, idealized as the exact
integer part of the base-1024 logarithm, `Nat.log 1024 bytes`. The program
evaluates the logarithms in IEEE binary64 doubles, which agrees with this
idealization except on a rounding fringe just below exact powers of 1024:
see `floatUnitIndex` below, which pins the double-precision computation at
the claim's `1024^5` boundary and diverges there (`bytes = 1024^5 - 1`
already yields index 5, not 4). -/
def sizeUnitIndex (bytes : Nat) : Nat := Nat.log 1024 bytes

/-- The displayed quantity `parseFloat((bytes / Math.pow(k, i)).toFixed(2))`
of `readableFileSize`, in hundredths (`toFixed(2)` keeps two decimals,
rounding to nearest). -/
def sizeHundredths (bytes : Nat) : Nat :=
  (200 * bytes / 1024 ^ sizeUnitIndex bytes + 1) / 2

/-- Renders a hundredths quantity the way `parseFloat(x.toFixed(2))` prints:
trailing zero decimals dropped. -/
def formatHundredths (h : Nat) : String :=
  if h % 100 = 0 then toString (h / 100)
  else if h % 10 = 0 then toString (h / 100) ++ "." ++ toString (h / 10 % 10)
  else toString (h / 100) ++ "." ++ toString (h / 10 % 10) ++ toString (h % 10)

/-- `readableFileSize(bytes)`: `'0 B'` for zero, otherwise the scaled
quantity followed by `sizes[i]` — which, when `i` runs past the end of the
unit table, is JavaScript's `undefined` and prints as `"undefined"`. -/
def readableFileSize (bytes : Nat) : String :=
  if bytes = 0 then "0 B"
  else
    formatHundredths (sizeHundredths bytes) ++ " " ++
      ((sizesList.get? (sizeUnitIndex bytes)).getD "undefined")

/-- C10 (amended): `readableFileSize 0 = "0 B"`; with the unit index taken
as the exact integer base-1024 logarithm — which the program's
double-precision computation matches except on a rounding fringe just
below `1024^5` — for every `1 ≤ bytes < 1024^5` the scaled quantity is
positive and the unit is one of the five listed units; for
`bytes ≥ 1024^5` the computed index runs past the unit table, so the
appended unit is `"undefined"`, which is not a listed unit. Under the
program's actual IEEE-double `Math.log`, the listed-unit range ends
slightly earlier: already at `bytes = 1024^5 - 1` the computed index is 5
(see `readableFileSize_float_boundary_counterexample`). -/
theorem readableFileSize_unit_domain :
    readableFileSize 0 = "0 B" ∧
    (∀ bytes : Nat, 1 ≤ bytes → bytes < 1024 ^ 5 →
      0 < sizeHundredths bytes ∧
      ∃ u ∈ sizesList, readableFileSize bytes =
        formatHundredths (sizeHundredths bytes) ++ " " ++ u) ∧
    (∀ bytes : Nat, 1024 ^ 5 ≤ bytes →
      readableFileSize bytes =
        formatHundredths (sizeHundredths bytes) ++ " " ++ "undefined" ∧
      "undefined" ∉ sizesList) := by
  refine ⟨rfl, ?_, ?_⟩
  · intro bytes h1 h5
    have hb0 : bytes ≠ 0 := by omega
    have hpow : 1024 ^ sizeUnitIndex bytes ≤ bytes :=
      Nat.pow_log_le_self 1024 hb0
    constructor
    · have h200 : 200 * 1024 ^ sizeUnitIndex bytes ≤ 200 * bytes :=
        Nat.mul_le_mul_left 200 hpow
      have hppos : 0 < 1024 ^ sizeUnitIndex bytes := Nat.pos_pow_of_pos _ (by norm_num)
      have : 200 ≤ 200 * bytes / 1024 ^ sizeUnitIndex bytes := by
        rw [Nat.le_div_iff_mul_le hppos]
        calc 200 * 1024 ^ sizeUnitIndex bytes ≤ 200 * bytes := h200
          _ = 200 * bytes := rfl
      simp only [sizeHundredths]
      omega
    · have hlt : sizeUnitIndex bytes < 5 :=
        Nat.log_lt_of_lt_pow hb0 h5
      refine ⟨(sizesList.get? (sizeUnitIndex bytes)).getD "undefined", ?_, ?_⟩
      · interval_cases h : sizeUnitIndex bytes <;> simp [sizesList]
      · simp [readableFileSize, hb0]
  · intro bytes h5
    have hge : 5 ≤ sizeUnitIndex bytes :=
      Nat.le_log_of_pow_le (by norm_num) h5
    have hb0 : bytes ≠ 0 := by
      intro h; rw [h] at h5; exact absurd h5 (by norm_num)
    have hnone : sizesList[sizeUnitIndex bytes]? = none := by
      apply List.getElem?_eq_none
      simpa [sizesList] using hge
    refine ⟨?_, by decide⟩
    simp [readableFileSize, hb0, hnone]

/-- Witness for C10: 5 bytes renders with a listed unit; `1024^5` bytes
falls off the unit table. -/
theorem readableFileSize_unit_domain_witness :
    (0 < sizeHundredths 5 ∧
      ∃ u ∈ sizesList, readableFileSize 5 =
        formatHundredths (sizeHundredths 5) ++ " " ++ u) ∧
    readableFileSize (1024 ^ 5) =
      formatHundredths (sizeHundredths (1024 ^ 5)) ++ " " ++ "undefined" := by
  constructor
  · exact readableFileSize_unit_domain.2.1 5 (by norm_num) (by norm_num)
  · exact (readableFileSize_unit_domain.2.2 (1024 ^ 5) (le_refl _)).1

/- The double-precision unit-index computation at the `1024^5` boundary.
Doubles are dyadic rationals; binary64 arithmetic on them is exact
rational arithmetic followed by rounding, so the division and floor below
are modelled exactly. -/

/-- A positive double as the exact dyadic rational it denotes:
`num * 2^(-shift)`. -/
structure Dyadic where
  num : Nat
  shift : Nat
deriving Repr, DecidableEq

/-- Round-half-even of `a / b` (`b ≠ 0`): the integer a binary64
operation's significand rounds to, ties to the even neighbour. -/
def rheNat (a b : Nat) : Nat :=
  let q := a / b
  let r := a % b
  if 2 * r < b then q
  else if b < 2 * r then q + 1
  else if q % 2 = 0 then q else q + 1

/-- The binary exponent of `1 ≤ q < 2^54`: the largest `e ≤ 53` with
`2^e ≤ q` (so `2^e ≤ q < 2^(e+1)`). -/
def expOf (q : Nat) : Nat :=
  (List.range 54).foldl (fun acc i => if 2 ^ i ≤ q then i else acc) 0

/-- Binary64 division of two positive doubles whose quotient lies in
`[1, 2^53)`: form the exact rational quotient, place its 53-bit
significand (binary exponent `e` with `2^e ≤ quotient < 2^(e+1)`), and
round it to nearest, ties to even. -/
def flDivD (a b : Dyadic) : Dyadic :=
  let n := a.num * 2 ^ b.shift
  let d := b.num * 2 ^ a.shift
  let e := expOf (n / d)
  ⟨rheNat (n * 2 ^ (52 - e)) d, 52 - e⟩

/-- `Math.floor` on a non-negative double — exact. -/
def floorD (x : Dyadic) : Nat := x.num / 2 ^ x.shift

/-- `Math.log` at the three inputs the `1024^5` boundary analysis needs, as
the exact dyadic value of the binary64 double the engines produce:
ECMAScript leaves `Math.log` implementation-approximated, but the
correctly rounded results — which the fdlibm-derived implementations of
the major engines reproduce at these arguments, checked externally by
exact integer arithmetic — are `log(1024) = 7804143460206699 * 2^(-50)`
and `log(1024^5 - 1) = log(1024^5) = 4877589662629187 * 2^(-47)` (the two
true logarithms differ by about an eighth of an ulp and round to the same
double). The model pins only these verified points and is `none`
elsewhere. -/
def jsMathLog (x : Nat) : Option Dyadic :=
  if x = 1024 then some ⟨7804143460206699, 50⟩
  else if x = 1024 ^ 5 - 1 ∨ x = 1024 ^ 5 then some ⟨4877589662629187, 47⟩
  else none

/-- The unit index as the program actually computes it,
`Math.floor(Math.log(bytes) / Math.log(k))`, in binary64: the double
division is exact rational division followed by binary64 rounding, and
`Math.floor` is exact on doubles. Defined at the inputs where `jsMathLog`
is pinned. -/
def floatUnitIndex (bytes : Nat) : Option Nat :=
  (jsMathLog bytes).bind fun lb =>
    (jsMathLog 1024).map fun lk => floorD (flDivD lb lk)

/-- C10 counterexample: at `bytes = 1024^5 - 1`, still below the claimed
`1024^5` boundary, the double-precision unit index is already 5 — the
exact quotient of the two log doubles exceeds 5 by only
`1/7804143460206699`, under half an ulp, so the divide rounds to exactly
5.0 — and `sizes[5]` is `undefined`, not one of the listed units. The
idealized exact index at the same input is 4, so the divergence sits
exactly on the claim's boundary: the program returns a non-listed unit for
a `bytes < 1024^5`. -/
theorem readableFileSize_float_boundary_counterexample :
    1024 ^ 5 - 1 < 1024 ^ 5 ∧
    floatUnitIndex (1024 ^ 5 - 1) = some 5 ∧
    sizesList.get? 5 = none ∧
    sizeUnitIndex (1024 ^ 5 - 1) = 4 := by
  refine ⟨by norm_num, ?_, by decide, ?_⟩
  · decide
  · exact Nat.log_eq_of_pow_le_of_lt_pow (by norm_num) (by norm_num)

/- ---------- fileToDataURL: base64 data URL encoding ---------- -/

/-- The base64 alphabet (RFC 4648, as produced by the browser's
`readAsDataURL`). -/
def b64Alphabet : List Char :=
  "ABCDEFGHIJKLMNOPQRSTUVWXYZabcdefghijklmnopqrstuvwxyz0123456789+/".data

/-- The base64 digit for a six-bit value. -/
def sixbitChar (n : Nat) : Char := b64Alphabet.getD n 'A'

/-- Base64-encode a byte list, three bytes to four digits, `=`-padded. -/
def b64encode : List Nat → List Char
  | [] => []
  | [a] => [sixbitChar (a / 4), sixbitChar (a % 4 * 16), '=', '=']
  | [a, b] =>
    [sixbitChar (a / 4), sixbitChar (a % 4 * 16 + b / 16),
     sixbitChar (b % 16 * 4), '=']
  | a :: b :: c :: rest =>
    sixbitChar (a / 4) :: sixbitChar (a % 4 * 16 + b / 16) ::
    sixbitChar (b % 16 * 4 + c / 64) :: sixbitChar (c % 64) :: b64encode rest

/-- `fileToDataURL(file)`: `FileReader.readAsDataURL` resolves with
`data:<file.type>;base64,<base64 of the file bytes>`. -/
def fileToDataURL (file : JSFile) : String :=
  "data:" ++ file.type ++ ";base64," ++ String.mk (b64encode file.bytes)

/- ---------- C8: handleFiles is sequential, not transactional ---------- -/

/-- The upload loop of `handleFiles`:
`for (const f of files) { const dataURL = await fileToDataURL(f); await addFileRecord(f, dataURL); }`.
Each iteration awaits its insert before the next file is touched. `clock`
supplies the `new Date().toISOString()` value of the `k`-th iteration. -/
def handleFilesLoop : List JSFile → (Nat → String) → Nat → StoreState → StoreState
  | [], _, _, s => s
  | f :: fs, clock, k, s =>
    handleFilesLoop fs clock (k + 1) (addFileRecord f (fileToDataURL f) (clock k) s).2

/-- The records the loop adds for a file list, starting at iteration `k`
with next key `nid`. -/
def recsFor : List JSFile → (Nat → String) → Nat → Nat → List FileRecord
  | [], _, _, _ => []
  | f :: fs, clock, k, nid =>
    { id := nid, name := f.name, type := f.type, size := f.size,
      uploadedAt := clock k, dataURL := fileToDataURL f } ::
      recsFor fs clock (k + 1) (nid + 1)

theorem handleFilesLoop_records (fs : List JSFile) :
    ∀ (clock : Nat → String) (k : Nat) (s : StoreState),
    (handleFilesLoop fs clock k s).records =
      s.records ++ recsFor fs clock k s.nextId := by
  induction fs with
  | nil => intro clock k s; simp [handleFilesLoop, recsFor]
  | cons f fs ih =>
    intro clock k s
    simp only [handleFilesLoop, recsFor]
    rw [ih]
    simp [addFileRecord]

/-- C8: the upload loop is strictly sequential and not transactional. The
first conjunct is the loop's step law: processing `f :: fs` runs the insert
for `f` to completion and only then starts the remaining files on the
resulting state — insert `k+1` is not issued until insert `k` has
completed. The second conjunct describes an interruption after any `j`
completed iterations: the store then holds exactly the prior records plus
one record per already-processed file — earlier inserts persist and nothing
is rolled back. -/
theorem handleFiles_sequential_not_transactional :
    (∀ (f : JSFile) (fs : List JSFile) (clock : Nat → String) (k : Nat)
        (s : StoreState),
      handleFilesLoop (f :: fs) clock k s =
        handleFilesLoop fs clock (k + 1)
          (addFileRecord f (fileToDataURL f) (clock k) s).2) ∧
    (∀ (fs : List JSFile) (clock : Nat → String) (j : Nat) (s : StoreState),
      (handleFilesLoop (fs.take j) clock 0 s).records =
        s.records ++ recsFor (fs.take j) clock 0 s.nextId) := by
  constructor
  · intro f fs clock k s
    rfl
  · intro fs clock j s
    exact handleFilesLoop_records (fs.take j) clock 0 s

/- ---------- C5: the data URL round-trips bytes and mime type ---------- -/

/-- The six-bit value of a base64 digit, if it is one. -/
def charSixbit (c : Char) : Option Nat :=
  b64Alphabet.indexOf? c

/-- Base64-decode a digit list: four digits to three bytes, with the two
`=`-padded final forms. -/
def b64decode : List Char → Option (List Nat)
  | [] => some []
  | c1 :: c2 :: c3 :: c4 :: rest =>
    (charSixbit c1).bind fun a1 =>
    (charSixbit c2).bind fun a2 =>
    if c3 = '=' then
      if c4 = '=' ∧ rest = [] then some [a1 * 4 + a2 / 16] else none
    else
      (charSixbit c3).bind fun a3 =>
      if c4 = '=' then
        if rest = [] then some [a1 * 4 + a2 / 16, a2 % 16 * 16 + a3 / 4]
        else none
      else
        (charSixbit c4).bind fun a4 =>
        (b64decode rest).map fun bs =>
          (a1 * 4 + a2 / 16) :: (a2 % 16 * 16 + a3 / 4) ::
            (a3 % 4 * 64 + a4) :: bs
  | _ => none

/-- Strips `p` from the front of `l`, or fails. -/
def dropPrefixCh : List Char → List Char → Option (List Char)
  | [], l => some l
  | _ :: _, [] => none
  | p :: ps, c :: cs => if c = p then dropPrefixCh ps cs else none

/-- Decode a `data:<mime>;base64,<payload>` URL back into the mime type and
the byte content: the inverse reading of the payload `fileToDataURL`
produces and `addFileRecord` stores. -/
def decodeDataURL (s : String) : Option (String × List Nat) :=
  (dropPrefixCh "data:".data s.data).bind fun s1 =>
    (dropPrefixCh ";base64,".data (s1.dropWhile (fun c => c != ';'))).bind
      fun payload => (b64decode payload).map
        fun bs => (String.mk (s1.takeWhile (fun c => c != ';')), bs)

theorem dropPrefixCh_append (p : List Char) :
    ∀ l : List Char, dropPrefixCh p (p ++ l) = some l := by
  induction p with
  | nil => intro l; rfl
  | cons c cs ih => intro l; simp [dropPrefixCh, ih]

theorem takeWhile_append_cons {p : Char → Bool} :
    ∀ (l1 : List Char) (c0 : Char) (l2 : List Char),
    (∀ c ∈ l1, p c = true) → p c0 = false →
    (l1 ++ c0 :: l2).takeWhile p = l1 ∧
    (l1 ++ c0 :: l2).dropWhile p = c0 :: l2 := by
  intro l1
  induction l1 with
  | nil =>
    intro c0 l2 _ hc0
    simp [List.takeWhile, List.dropWhile, hc0]
  | cons c cs ih =>
    intro c0 l2 hall hc0
    have hc : p c = true := hall c (by simp)
    have := ih c0 l2 (fun d hd => hall d (by simp [hd])) hc0
    simp [List.takeWhile, List.dropWhile, hc, this.1, this.2]

theorem charSixbit_sixbitChar : ∀ n : Nat, n < 64 →
    charSixbit (sixbitChar n) = some n := by
  have h : ∀ n : Fin 64, charSixbit (sixbitChar n.val) = some n.val := by decide
  intro n hn
  exact h ⟨n, hn⟩

theorem sixbitChar_ne_pad : ∀ n : Nat, n < 64 → sixbitChar n ≠ '=' := by
  have h : ∀ n : Fin 64, sixbitChar n.val ≠ '=' := by decide
  intro n hn
  exact h ⟨n, hn⟩

/-- Induction principle matching the three-byte chunking of `b64encode`. -/
theorem chunk3Ind (P : List Nat → Prop) (h0 : P []) (h1 : ∀ a, P [a])
    (h2 : ∀ a b, P [a, b])
    (h3 : ∀ a b c rest, P rest → P (a :: b :: c :: rest)) :
    ∀ l : List Nat, P l
  | [] => h0
  | [a] => h1 a
  | [a, b] => h2 a b
  | a :: b :: c :: rest =>
    h3 a b c rest (chunk3Ind P h0 h1 h2 h3 rest)

theorem b64_roundtrip : ∀ l : List Nat, (∀ x ∈ l, x < 256) →
    b64decode (b64encode l) = some l := by
  intro l
  induction l using chunk3Ind with
  | h0 => intro _; rfl
  | h1 a =>
    intro hv
    have ha : a < 256 := hv a (by simp)
    have e1 := charSixbit_sixbitChar (a / 4) (by omega)
    have e2 := charSixbit_sixbitChar (a % 4 * 16) (by omega)
    simp only [b64encode, b64decode, e1, e2, Option.some_bind', and_self,
      if_true]
    have hx : a / 4 * 4 + a % 4 * 16 / 16 = a := by omega
    rw [hx]
  | h2 a b =>
    intro hv
    have ha : a < 256 := hv a (by simp)
    have hb : b < 256 := hv b (by simp)
    have e1 := charSixbit_sixbitChar (a / 4) (by omega)
    have e2 := charSixbit_sixbitChar (a % 4 * 16 + b / 16) (by omega)
    have e3 := charSixbit_sixbitChar (b % 16 * 4) (by omega)
    have n3 := sixbitChar_ne_pad (b % 16 * 4) (by omega)
    simp only [b64encode, b64decode, e1, e2, e3, Option.some_bind']
    rw [if_neg n3]
    simp only [if_true]
    have hx : a / 4 * 4 + (a % 4 * 16 + b / 16) / 16 = a := by omega
    have hy : (a % 4 * 16 + b / 16) % 16 * 16 + b % 16 * 4 / 4 = b := by omega
    rw [hx, hy]
  | h3 a b c rest ih =>
    intro hv
    have ha : a < 256 := hv a (by simp)
    have hb : b < 256 := hv b (by simp)
    have hc : c < 256 := hv c (by simp)
    have hrest : ∀ x ∈ rest, x < 256 := fun x hx => hv x (by simp [hx])
    have e1 := charSixbit_sixbitChar (a / 4) (by omega)
    have e2 := charSixbit_sixbitChar (a % 4 * 16 + b / 16) (by omega)
    have e3 := charSixbit_sixbitChar (b % 16 * 4 + c / 64) (by omega)
    have e4 := charSixbit_sixbitChar (c % 64) (by omega)
    have n3 := sixbitChar_ne_pad (b % 16 * 4 + c / 64) (by omega)
    have n4 := sixbitChar_ne_pad (c % 64) (by omega)
    simp only [b64encode, b64decode, e1, e2, e3, e4, Option.some_bind']
    rw [if_neg n3, if_neg n4, ih hrest]
    have hx : a / 4 * 4 + (a % 4 * 16 + b / 16) / 16 = a := by omega
    have hy : (a % 4 * 16 + b / 16) % 16 * 16 + (b % 16 * 4 + c / 64) / 4 = b := by
      omega
    have hz : (b % 16 * 4 + c / 64) % 4 * 64 + c % 64 = c := by omega
    rw [Option.map_some', hx, hy, hz]

theorem sixbitChar_ne_semi : ∀ n : Nat, sixbitChar n ≠ ';' := by
  have hs : ∀ n : Fin 64, sixbitChar n.val ≠ ';' := by decide
  intro n
  rcases lt_or_le n 64 with h | h
  · exact hs ⟨n, h⟩
  · have hlen : b64Alphabet.length ≤ n := by
      simpa [b64Alphabet] using h
    have hnone : b64Alphabet[n]? = none := List.getElem?_eq_none hlen
    simp [sixbitChar, List.getD, hnone]

theorem b64encode_no_semi : ∀ l : List Nat, ∀ c ∈ b64encode l, c ≠ ';' := by
  intro l
  induction l using chunk3Ind with
  | h0 => intro c hc; simp [b64encode] at hc
  | h1 a =>
    intro c hc
    simp only [b64encode, List.mem_cons, List.not_mem_nil, or_false] at hc
    rcases hc with rfl | rfl | rfl | rfl
    · exact sixbitChar_ne_semi _
    · exact sixbitChar_ne_semi _
    · decide
    · decide
  | h2 a b =>
    intro c hc
    simp only [b64encode, List.mem_cons, List.not_mem_nil, or_false] at hc
    rcases hc with rfl | rfl | rfl | rfl
    · exact sixbitChar_ne_semi _
    · exact sixbitChar_ne_semi _
    · exact sixbitChar_ne_semi _
    · decide
  | h3 a b c rest ih =>
    intro d hd
    simp only [b64encode, List.mem_cons] at hd
    rcases hd with rfl | rfl | rfl | rfl | hd
    · exact sixbitChar_ne_semi _
    · exact sixbitChar_ne_semi _
    · exact sixbitChar_ne_semi _
    · exact sixbitChar_ne_semi _
    · exact ih d hd

/-- C5: round-trip. For every uploaded file whose content is a byte
sequence (each `< 256`) and whose mime type contains no `;` (true of every
plain mime type such as `image/png`), decoding the `data:` URL that
`fileToDataURL` produces — the exact payload `addFileRecord` stores in
`dataURL` — recovers exactly the original byte sequence and the mime type
supplied at insert time. -/
theorem fileToDataURL_roundtrip (file : JSFile)
    (hbytes : ∀ x ∈ file.bytes, x < 256)
    (hmime : ∀ c ∈ file.type.data, c ≠ ';') :
    decodeDataURL (fileToDataURL file) = some (file.type, file.bytes) := by
  have hdata : (fileToDataURL file).data =
      "data:".data ++
        (file.type.data ++ (";base64,".data ++ b64encode file.bytes)) := by
    simp [fileToDataURL, String.data_append]
  have hmid : ";base64,".data ++ b64encode file.bytes =
      ';' :: ("base64,".data ++ b64encode file.bytes) := rfl
  have hsplit := takeWhile_append_cons (p := fun c => c != ';')
    file.type.data ';' ("base64,".data ++ b64encode file.bytes)
    (fun c hc => by simpa using hmime c hc) (by decide)
  have hdrop2 : dropPrefixCh ";base64,".data
      (';' :: ("base64,".data ++ b64encode file.bytes)) =
      some (b64encode file.bytes) := by
    rw [← hmid]
    exact dropPrefixCh_append _ _
  simp only [decodeDataURL, hdata, hmid, dropPrefixCh_append,
    Option.some_bind', hsplit.1, hsplit.2, hdrop2,
    b64_roundtrip file.bytes hbytes, Option.map_some']

/-- Witness for C5: a concrete three-byte `text/plain` file round-trips. -/
theorem fileToDataURL_roundtrip_witness :
    decodeDataURL (fileToDataURL ⟨"a.txt", "text/plain", 3, [104, 105, 10]⟩) =
      some ("text/plain", [104, 105, 10]) :=
  fileToDataURL_roundtrip ⟨"a.txt", "text/plain", 3, [104, 105, 10]⟩
    (by decide) (by decide)

end App
